import Mathlib

/-!
Shallow embedding of the core of `src/app.py` (Nebula Paw Kitchen), the
meal-planning calculator for home-cooked dog food, together with proofs
about the embedded operations.

Modelling conventions:
* Python floats are modelled as exact rationals (`ℚ`); `weight ** 0.75` is
  modelled by an explicit parameter `pow75 : ℚ → ℚ` standing for the float
  power function, since none of the verified properties depend on its values.
* `random.Random` (a seeded Mersenne-Twister PRNG) is modelled as a state
  `Rng` holding a deterministic stream of naturals plus a position; each
  primitive draw (`random()`, `choice`) consumes one stream element.  The
  seeded constructor is modelled by a parameter `mt : Int → Nat → Nat`
  mapping a seed to its stream (the PRNG family).  All properties proved
  about the rotation hold for *every* stream.
* Python exceptions (`ValueError`, `IndexError`, `ZeroDivisionError`) are
  modelled with `Except String`.
* Python's `round` (banker's rounding, half to even) is modelled exactly by
  `pyRound` on `ℚ`.
* Python dicts preserving insertion order are modelled as association lists.
-/

/-! ### Random-generator model -/

structure Rng where
  stream : Nat → Nat
  pos : Nat

def Rng.next (r : Rng) : Nat × Rng :=
  (r.stream r.pos, ⟨r.stream, r.pos + 1⟩)

/-- Python's `random.random()` yields a 53-bit float in `[0, 1)`. -/
def randDenom : Nat := 2 ^ 53

def Rng.random (r : Rng) : ℚ × Rng :=
  (((r.next.1 % randDenom : Nat) : ℚ) / (randDenom : ℚ), r.next.2)

/-- Python's `rng.choice(seq)`: uniform element; `IndexError` when empty. -/
def Rng.choice (r : Rng) (l : List String) : Except String (String × Rng) :=
  if h : l = [] then .error "IndexError: cannot choose from an empty sequence"
  else
    .ok (l.get ⟨r.next.1 % l.length, Nat.mod_lt _ (List.length_pos.mpr h)⟩,
      r.next.2)

theorem Rng.random_nonneg (r : Rng) : 0 ≤ r.random.1 := by
  unfold Rng.random Rng.next
  positivity

theorem Rng.random_lt_one (r : Rng) : r.random.1 < 1 := by
  unfold Rng.random Rng.next randDenom
  rw [div_lt_one (by norm_num)]
  have h := Nat.mod_lt (r.stream r.pos) (y := 2 ^ 53) (by norm_num)
  exact_mod_cast h

theorem Rng.choice_mem {r : Rng} {l : List String} {x : String} {r' : Rng}
    (h : r.choice l = .ok (x, r')) : x ∈ l := by
  unfold Rng.choice at h
  split at h
  · exact absurd h (by simp)
  · simp only [Except.ok.injEq, Prod.mk.injEq] at h
    rw [← h.1]
    exact List.get_mem _ _ _

/-! ### Ingredient catalog (`build_ingredients` / `INGREDIENTS`)

Only the fields used by the verified operations (name, category, nutrition
numbers) are embedded; the free-text note/benefit/caution fields are not
consumed by any embedded computation. -/

structure Ingredient where
  name : String
  category : String
  kcal_per_100g : ℚ
  protein_g : ℚ
  fat_g : ℚ
  carbs_g : ℚ
deriving DecidableEq

def INGREDIENTS : List Ingredient := [
  ⟨"Chicken (lean, cooked)", "Meat", 165, 31, 3.6, 0⟩,
  ⟨"Turkey (lean, cooked)", "Meat", 150, 29, 2.0, 0⟩,
  ⟨"Beef (lean, cooked)", "Meat", 200, 26, 10, 0⟩,
  ⟨"Lamb (lean, cooked)", "Meat", 206, 25, 12, 0⟩,
  ⟨"Pork (lean, cooked)", "Meat", 195, 27, 9, 0⟩,
  ⟨"Duck (lean, cooked)", "Meat", 190, 24, 11, 0⟩,
  ⟨"Venison (lean, cooked)", "Meat", 158, 30, 3.2, 0⟩,
  ⟨"Rabbit (cooked)", "Meat", 173, 33, 3.5, 0⟩,
  ⟨"Egg (cooked)", "Meat", 155, 13, 11, 1.1⟩,
  ⟨"Salmon (cooked)", "Meat", 208, 20, 13, 0⟩,
  ⟨"White Fish (cod, cooked)", "Meat", 105, 23, 0.9, 0⟩,
  ⟨"Sardines (cooked, deboned)", "Meat", 208, 25, 11, 0⟩,
  ⟨"Pumpkin (cooked)", "Veg", 26, 1, 0.1, 6.5⟩,
  ⟨"Carrot (cooked)", "Veg", 35, 0.8, 0.2, 8⟩,
  ⟨"Broccoli (cooked)", "Veg", 34, 2.8, 0.4, 7⟩,
  ⟨"Zucchini (cooked)", "Veg", 17, 1.2, 0.3, 3.1⟩,
  ⟨"Green Beans (cooked)", "Veg", 31, 1.8, 0.1, 7⟩,
  ⟨"Cauliflower (cooked)", "Veg", 25, 1.9, 0.3, 5⟩,
  ⟨"Sweet Peas (cooked)", "Veg", 84, 5.4, 0.4, 15.6⟩,
  ⟨"Kale (cooked, small portions)", "Veg", 35, 2.9, 1.5, 4.4⟩,
  ⟨"Spinach (cooked, small portions)", "Veg", 23, 2.9, 0.4, 3.6⟩,
  ⟨"Bell Pepper (red, cooked)", "Veg", 31, 1, 0.3, 6⟩,
  ⟨"Cabbage (cooked, small portions)", "Veg", 23, 1.3, 0.1, 5.5⟩,
  ⟨"Cucumber (peeled, small portions)", "Veg", 15, 0.7, 0.1, 3.6⟩,
  ⟨"Sweet Potato (cooked)", "Carb", 86, 1.6, 0.1, 20⟩,
  ⟨"Brown Rice (cooked)", "Carb", 123, 2.7, 1.0, 25.6⟩,
  ⟨"White Rice (cooked)", "Carb", 130, 2.4, 0.3, 28.2⟩,
  ⟨"Oats (cooked)", "Carb", 71, 2.5, 1.4, 12⟩,
  ⟨"Quinoa (cooked)", "Carb", 120, 4.4, 1.9, 21.3⟩,
  ⟨"Barley (cooked)", "Carb", 123, 2.3, 0.4, 28⟩,
  ⟨"Buckwheat (cooked)", "Carb", 92, 3.4, 0.6, 19.9⟩,
  ⟨"Potato (cooked, plain)", "Carb", 87, 2, 0.1, 20⟩,
  ⟨"Fish Oil (supplemental)", "Oil", 900, 0, 100, 0⟩,
  ⟨"Olive Oil (small amounts)", "Oil", 884, 0, 100, 0⟩,
  ⟨"Flaxseed Oil (small amounts)", "Oil", 884, 0, 100, 0⟩,
  ⟨"MCT Oil (very small amounts)", "Oil", 900, 0, 100, 0⟩,
  ⟨"Blueberries (small portions)", "Treat", 57, 0.7, 0.3, 14.5⟩,
  ⟨"Apple (peeled, no seeds)", "Treat", 52, 0.3, 0.2, 14⟩,
  ⟨"Strawberries (small portions)", "Treat", 32, 0.7, 0.3, 7.7⟩]

def filter_ingredients_by_category (cat : String) : List String :=
  (INGREDIENTS.filter (fun i => i.category = cat)).map Ingredient.name

def all_meats : List String := filter_ingredients_by_category "Meat"
def all_vegs : List String := filter_ingredients_by_category "Veg"
def all_carbs : List String := filter_ingredients_by_category "Carb"

/-! ### Life stage and energy (`age_to_life_stage`, `calc_rer`,
`mer_factor`, `compute_daily_energy`) -/

def age_to_life_stage (age_years : ℚ) : String :=
  if age_years < 1 then "Puppy"
  else if age_years < 7 then "Adult"
  else "Senior"

def calc_rer (pow75 : ℚ → ℚ) (weight_kg : ℚ) : ℚ := 70 * pow75 weight_kg

def mer_factor (life_stage : String) (activity : String) (neutered : Bool) : ℚ :=
  (if life_stage = "Puppy" then (if neutered then 2.2 else 2.4)
   else if life_stage = "Senior" then (if neutered then 1.3 else 1.4)
   else (if neutered then 1.6 else 1.8)) *
  (if activity = "Low" then 0.9
   else if activity = "Normal" then 1.0
   else if activity = "High" then 1.2
   else if activity = "Athletic/Working" then 1.35
   else 1.0)

structure EnergyResult where
  rer : ℚ
  mer : ℚ
  mer_adj : ℚ
  explanation : String

def flagWeightLoss : String := "Overweight / Weight loss goal"
def flagPancreatitis : String := "Pancreatitis risk / Needs lower fat"
def flagKidney : String := "Kidney concern (vet-managed)"
def flagPicky : String := "Very picky eater"

def pickyNote : String := "Use palatability tactics & stronger rotation."

/-- The successive values of the Python local `adj` in `compute_daily_energy`
(starting from `1.0`), one definition per `if` statement. -/
def energy_adj1 (fl : List String) : ℚ :=
  if flagWeightLoss ∈ fl then 1.0 * 0.85 else 1.0

def energy_adj2 (fl : List String) : ℚ :=
  if flagPancreatitis ∈ fl then energy_adj1 fl * 0.95 else energy_adj1 fl

def energy_adj3 (fl : List String) : ℚ :=
  if flagKidney ∈ fl then energy_adj2 fl * 0.95 else energy_adj2 fl

/-- The successive values of the Python local `rationale` (starting from
`[]`), one definition per `if` statement. -/
def energy_rationale1 (fl : List String) : List String :=
  if flagWeightLoss ∈ fl then ["Weight-loss adjusted target."] else []

def energy_rationale2 (fl : List String) : List String :=
  if flagPancreatitis ∈ fl then
    energy_rationale1 fl ++ ["Fat-sensitive conservative target."]
  else energy_rationale1 fl

def energy_rationale3 (fl : List String) : List String :=
  if flagKidney ∈ fl then
    energy_rationale2 fl ++
      ["Energy conservative; protein strategy must be vet-guided."]
  else energy_rationale2 fl

def energy_rationale4 (fl : List String) : List String :=
  if flagPicky ∈ fl then energy_rationale3 fl ++ [pickyNote]
  else energy_rationale3 fl

def compute_daily_energy (pow75 : ℚ → ℚ) (weight_kg age_years : ℚ)
    (activity : String) (neutered : Bool) (special_flags : List String) :
    EnergyResult :=
  ⟨calc_rer pow75 weight_kg,
   calc_rer pow75 weight_kg *
     mer_factor (age_to_life_stage age_years) activity neutered,
   calc_rer pow75 weight_kg *
     mer_factor (age_to_life_stage age_years) activity neutered *
     energy_adj3 special_flags,
   age_to_life_stage age_years ++
     (if energy_rationale4 special_flags ≠ [] then
       " | " ++ String.intercalate " " (energy_rationale4 special_flags)
     else "")⟩

/-! ### Python `round` (half to even) and `ensure_ratio_sum` -/

def pyRound (q : ℚ) : Int :=
  if q - (⌊q⌋ : ℚ) < 1/2 then ⌊q⌋
  else if 1/2 < q - (⌊q⌋ : ℚ) then ⌊q⌋ + 1
  else if ⌊q⌋ % 2 = 0 then ⌊q⌋ else ⌊q⌋ + 1

/-- Python's `round(x, 1)`: half to even at one decimal digit. -/
def pyRound1 (q : ℚ) : ℚ := (pyRound (q * 10) : ℚ) / 10

/-- Lines 540–545 of `ensure_ratio_sum`, after the two roundings: set
`carb = max(0, 100 - meat - veg)` and, if the three do not add to 100, push
the residual onto `meat` (floored at 0).  The Python locals `carb` and
`diff` are expanded in place. -/
def ensureRatioFix (meat veg : Int) : Int × Int × Int :=
  if meat + veg + max 0 (100 - meat - veg) ≠ 100 then
    (max 0 (meat + (100 - (meat + veg + max 0 (100 - meat - veg)))), veg,
      max 0 (100 - meat - veg))
  else
    (meat, veg, max 0 (100 - meat - veg))

def ensure_ratio_sum (meat_pct veg_pct carb_pct : Int) :
    Except String (Int × Int × Int) :=
  if meat_pct + veg_pct + carb_pct = 100 then .ok (meat_pct, veg_pct, carb_pct)
  else if meat_pct + veg_pct + carb_pct = 0 then
    .error "ZeroDivisionError: division by zero"
  else
    .ok (ensureRatioFix
      (pyRound ((meat_pct : ℚ) / ((meat_pct + veg_pct + carb_pct : Int) : ℚ) * 100))
      (pyRound ((veg_pct : ℚ) / ((meat_pct + veg_pct + carb_pct : Int) : ℚ) * 100)))

/-! ### Other energy / ratio helpers -/

def estimate_food_grams_from_energy (daily_kcal assumed_kcal_per_g : ℚ) :
    Except String ℚ :=
  if assumed_kcal_per_g = 0 then .error "ZeroDivisionError: division by zero"
  else .ok (daily_kcal / assumed_kcal_per_g)

def grams_for_day (total_grams : ℚ) (meat_pct veg_pct carb_pct : Int) :
    ℚ × ℚ × ℚ :=
  (total_grams * meat_pct / 100, total_grams * veg_pct / 100,
   total_grams * carb_pct / 100)

/-! ### Taste learning (`pref_score_from_label`, `get_preference_maps`)

The Python function reads the feedback log from `st.session_state.taste_log`;
the embedding passes that session-state list explicitly. -/

structure TasteEntry where
  dog_id : String
  protein : Option String
  veg : Option String
  preference : String
deriving DecidableEq

def pref_score_from_label (p : String) : Int :=
  if p = "Dislike" then 0
  else if p = "Neutral" then 1
  else if p = "Like" then 2
  else if p = "Love" then 3
  else 1

/-- Mean of the scores of the non-null entries naming `name`, as computed by
pandas `dropna` + `groupby(...).mean()`; `none` when the group is empty. -/
def groupMean (scores : List Int) : Option ℚ :=
  if scores = [] then none
  else some ((scores.map (fun s => (s : ℚ))).sum / scores.length)

/-- The body of `get_preference_maps` on the already-filtered per-dog
entries (the Python local `entries`). -/
def preference_maps_of (entries : List TasteEntry) :
    (String → Option ℚ) × (String → Option ℚ) :=
  if entries = [] then (fun _ => none, fun _ => none)
  else
    (fun name => groupMean ((entries.filter (fun e => e.protein = some name)).map
        (fun e => pref_score_from_label e.preference)),
     fun name => groupMean ((entries.filter (fun e => e.veg = some name)).map
        (fun e => pref_score_from_label e.preference)))

def get_preference_maps (taste_log : List TasteEntry) (dog_id : String) :
    (String → Option ℚ) × (String → Option ℚ) :=
  preference_maps_of (taste_log.filter (fun e => e.dog_id = dog_id))

/-! ### Weighted selection (`weighted_choice`) -/

/-- The accumulator walk of `weighted_choice`: clamp each weight at 0,
accumulate, return the first item whose cumulative weight reaches `r`. -/
def wcWalk (r : ℚ) : ℚ → List (String × ℚ) → Option String
  | _, [] => none
  | acc, (item, w) :: rest =>
      let acc' := acc + max 0 w
      if r ≤ acc' then some item else wcWalk r acc' rest

def weighted_choice (rng : Rng) (items : List String) (weights : List ℚ) :
    Except String (String × Rng) :=
  if h : items = [] then .error "weighted_choice received empty items"
  else if items.length ≠ weights.length then
    .error "weighted_choice items/weights length mismatch"
  else if (weights.map (fun w => max 0 w)).sum ≤ 0 then rng.choice items
  else
    match wcWalk (rng.random.1 * (weights.map (fun w => max 0 w)).sum) 0
        (items.zip weights) with
    | some x => .ok (x, rng.random.2)
    | none => .ok (items.getLast h, rng.random.2)

/-! ### Rotation selection (`pick_rotation_smart` and its inner `choose`) -/

/-- Python truthiness of an optional string (`None` and `""` are falsy). -/
def truthy : Option String → Bool
  | none => false
  | some s => s ≠ ""

/-- Step `if last and last2 and last == last2: ...` of `choose`: after two
identical picks in a row, drop that pick if doing so leaves candidates. -/
def double_repeat_filter : List String → Option String → Option String →
    List String
  | candidates, some l, some l2 =>
      if l ≠ "" ∧ l2 ≠ "" ∧ l = l2 then
        if candidates.filter (fun x => x ≠ l) = [] then candidates
        else candidates.filter (fun x => x ≠ l)
      else candidates
  | candidates, _, _ => candidates

/-- Step `if last and len(candidates) > 1: ...` of `choose`: drop yesterday's
pick when the candidate set has more than one element and dropping leaves
candidates. -/
def soft_repeat_filter : List String → Option String → List String
  | candidates, some l =>
      if l ≠ "" ∧ 1 < candidates.length then
        if candidates.filter (fun x => x ≠ l) = [] then candidates
        else candidates.filter (fun x => x ≠ l)
      else candidates
  | candidates, none => candidates

def taste_weight (use_taste_weights : Bool) (name : String)
    (m : String → Option ℚ) : ℚ :=
  if !use_taste_weights then 1.0
  else
    match m name with
    | none => 1.0
    | some s => max 0.25 (0.25 + s)

def choose (rng : Rng) (pool : List String) (last last2 : Option String)
    (use_taste_weights : Bool) (taste_map : String → Option ℚ) :
    Except String (String × Rng) :=
  if pool = [] then rng.choice all_meats
  else
    let candidates := soft_repeat_filter (double_repeat_filter pool last last2) last
    let weights := candidates.map (fun x => taste_weight use_taste_weights x taste_map)
    weighted_choice rng candidates weights

/-- `dict.fromkeys`: deduplicate keeping the first occurrence of each name. -/
def dedupe : List String → List String
  | [] => []
  | x :: xs => x :: dedupe (xs.filter (fun y => y ≠ x))
termination_by l => l.length
decreasing_by
  simp only [List.length_cons]
  exact Nat.lt_succ_of_le (List.length_filter_le _ _)

/-- Candidate-pool construction of `pick_rotation_smart` for one category. -/
def build_pool (pantry recs catalog : List String) (allow_new : Bool) :
    List String :=
  if allow_new then dedupe (pantry ++ recs ++ catalog)
  else if pantry = [] then catalog else pantry

structure DayTriple where
  meat : String
  veg : String
  carb : String
deriving DecidableEq

/-- The `for _ in range(days)` loop of `pick_rotation_smart`, with the
mutable `last_*` trackers and the rng threaded explicitly. -/
def rotation_loop (meat_pool veg_pool carb_pool : List String)
    (use_taste_weights : Bool) (tm tv : String → Option ℚ) :
    Nat → Rng → Option String → Option String → Option String → Option String →
    Except String (List DayTriple × Rng)
  | 0, rng, _, _, _, _ => .ok ([], rng)
  | Nat.succ d, rng, last_meat, last_meat2, last_veg, last_veg2 =>
    match choose rng meat_pool last_meat last_meat2 use_taste_weights tm with
    | .error e => .error e
    | .ok (meat, rng1) =>
      match (if veg_pool ≠ [] then
               choose rng1 veg_pool last_veg last_veg2 use_taste_weights tv
             else rng1.choice all_vegs) with
      | .error e => .error e
      | .ok (veg, rng2) =>
        match (if carb_pool ≠ [] then rng2.choice carb_pool
               else rng2.choice all_carbs) with
        | .error e => .error e
        | .ok (carb, rng3) =>
          match rotation_loop meat_pool veg_pool carb_pool use_taste_weights
              tm tv d rng3 (some meat) last_meat (some veg) last_veg with
          | .error e => .error e
          | .ok (rest, rng4) => .ok (⟨meat, veg, carb⟩ :: rest, rng4)

def pick_rotation_smart (mt : Int → Nat → Nat)
    (pantry_meats pantry_vegs pantry_carbs : List String) (allow_new : Bool)
    (rec_meats rec_vegs rec_carbs : List String)
    (taste_meat_map taste_veg_map : String → Option ℚ)
    (use_taste_weights : Bool) (days : Nat) (seed : Option Int) :
    Except String (List DayTriple) :=
  let rng : Rng := ⟨mt (seed.getD 42), 0⟩
  let meat_pool := build_pool pantry_meats rec_meats all_meats allow_new
  let veg_pool := build_pool pantry_vegs rec_vegs all_vegs allow_new
  let carb_pool := build_pool pantry_carbs rec_carbs all_carbs allow_new
  match rotation_loop meat_pool veg_pool carb_pool use_taste_weights
      taste_meat_map taste_veg_map days rng none none none none with
  | .error e => .error e
  | .ok (plan, _) => .ok plan

/-! ### Weekly shopping list (`build_weekly_shopping_list`) -/

structure PlanRow where
  meat : String
  veg : String
  carb : String
  meat_g : ℚ
  veg_g : ℚ
  carb_g : ℚ

/-- `totals[name] = totals.get(name, 0.0) + grams` on an insertion-ordered
dict, modelled on an association list. -/
def upsert : List (String × ℚ) → String → ℚ → List (String × ℚ)
  | [], name, g => [(name, g)]
  | (n, v) :: rest, name, g =>
      if n = name then (n, v + g) :: rest else (n, v) :: upsert rest name g

def add_item (totals : List (String × ℚ)) (name : String) (grams : ℚ) :
    List (String × ℚ) :=
  if name = "" ∨ name = "—" then totals else upsert totals name grams

def week_totals (plan : List PlanRow) : List (String × ℚ) :=
  plan.foldl
    (fun t row =>
      add_item (add_item (add_item t row.meat row.meat_g) row.veg row.veg_g)
        row.carb row.carb_g)
    []

def catalog_category (name : String) : String :=
  match INGREDIENTS.find? (fun i => i.name = name) with
  | some i => i.category
  | none => "Unknown"

structure ShopRow where
  ingredient : String
  category : String
  total_g : Int
  avg_g : ℚ
deriving DecidableEq

def shopRowLe (a b : ShopRow) : Bool :=
  decide (a.category < b.category ∨
    (a.category = b.category ∧ a.ingredient ≤ b.ingredient))

def build_weekly_shopping_list (plan : List PlanRow) : List ShopRow :=
  let rows := (week_totals plan).map (fun p =>
    ShopRow.mk p.1 (catalog_category p.1) (pyRound p.2) (pyRound1 (p.2 / 7)))
  rows.mergeSort shopRowLe

/-! ### Properties of `pyRound` -/

theorem pyRound_eq_floor_or (q : ℚ) : pyRound q = ⌊q⌋ ∨ pyRound q = ⌊q⌋ + 1 := by
  unfold pyRound
  split_ifs <;> simp

theorem pyRound_nonneg {q : ℚ} (h : 0 ≤ q) : 0 ≤ pyRound q := by
  have hf : (0 : Int) ≤ ⌊q⌋ := Int.floor_nonneg.mpr h
  rcases pyRound_eq_floor_or q with h1 | h1 <;> omega

theorem pyRound_le_of_le {q : ℚ} {n : ℤ} (h : q ≤ (n : ℚ)) : pyRound q ≤ n := by
  have hf : ⌊q⌋ ≤ n := by
    have := Int.floor_le_floor (α := ℚ) h
    simpa using this
  unfold pyRound
  split_ifs with h1 h2 h3
  · exact hf
  · have hq : (⌊q⌋ : ℚ) < q := by linarith
    have : ⌊q⌋ < n := by exact_mod_cast lt_of_lt_of_le hq h
    omega
  · exact hf
  · have hq : (⌊q⌋ : ℚ) < q := by linarith
    have : ⌊q⌋ < n := by exact_mod_cast lt_of_lt_of_le hq h
    omega

/-! ### Claim C3: ratio normalization -/

/-- C3 counterexample: the claim fails as stated.  At `(-50, 30, 10)` the sum
is `-10 ≠ 100` but the returned triple `(400, -300, 0)` has a negative
component, and at `(0, 0, 0)` (sum `0 ≠ 100`) the code raises
`ZeroDivisionError` instead of returning any triple. -/
theorem C3_counterexample :
    ensure_ratio_sum (-50) 30 10 = .ok (400, -300, 0) ∧
    ((-50 : Int) + 30 + 10 ≠ 100 ∧ ¬(0 ≤ (-300 : Int))) ∧
    ensure_ratio_sum 0 0 0 = .error "ZeroDivisionError: division by zero" ∧
    ((0 : Int) + 0 + 0 ≠ 100) := by
  refine ⟨?_, by norm_num, ?_, by norm_num⟩ <;>
    norm_num [ensure_ratio_sum, ensureRatioFix, pyRound]

/-- C3 (amended): a triple already summing to 100 is returned unchanged, and
for every triple of NON-NEGATIVE percentages with POSITIVE sum `≠ 100`,
`ensure_ratio_sum` returns a triple of non-negative integers summing to
exactly 100.  (The original claim, quantified over all integer triples with
sum `≠ 100`, is refuted by `C3_counterexample`.) -/
theorem C3_normalize_correct :
    (∀ m v c : Int, m + v + c = 100 → ensure_ratio_sum m v c = .ok (m, v, c)) ∧
    (∀ m v c : Int, 0 ≤ m → 0 ≤ v → 0 ≤ c → 0 < m + v + c →
      ∃ t : Int × Int × Int, ensure_ratio_sum m v c = .ok t ∧
        t.1 + t.2.1 + t.2.2 = 100 ∧ 0 ≤ t.1 ∧ 0 ≤ t.2.1 ∧ 0 ≤ t.2.2) := by
  constructor
  · intro m v c h
    unfold ensure_ratio_sum
    rw [if_pos h]
  · intro m v c hm hv hc hpos
    unfold ensure_ratio_sum
    split_ifs with h1 h2
    · exact ⟨(m, v, c), rfl, by dsimp only; omega, hm, hv, hc⟩
    · omega
    · have htQ : (0 : ℚ) < ((m + v + c : Int) : ℚ) := by exact_mod_cast hpos
      have hmQ : (0 : ℚ) ≤ ((m : Int) : ℚ) := by exact_mod_cast hm
      have hvQ : (0 : ℚ) ≤ ((v : Int) : ℚ) := by exact_mod_cast hv
      set meat := pyRound ((m : ℚ) / ((m + v + c : Int) : ℚ) * 100) with hmeat
      set veg := pyRound ((v : ℚ) / ((m + v + c : Int) : ℚ) * 100) with hveg
      have h_meat_nonneg : 0 ≤ meat :=
        pyRound_nonneg (mul_nonneg (div_nonneg hmQ htQ.le) (by norm_num))
      have h_veg_nonneg : 0 ≤ veg :=
        pyRound_nonneg (mul_nonneg (div_nonneg hvQ htQ.le) (by norm_num))
      have h_veg_le : veg ≤ 100 := by
        apply pyRound_le_of_le (n := 100)
        have hvt : ((v : Int) : ℚ) ≤ ((m + v + c : Int) : ℚ) := by
          exact_mod_cast (by omega : v ≤ m + v + c)
        have hdiv : (v : ℚ) / ((m + v + c : Int) : ℚ) ≤ 1 :=
          (div_le_one htQ).mpr hvt
        calc (v : ℚ) / ((m + v + c : Int) : ℚ) * 100 ≤ 1 * 100 := by
              exact mul_le_mul_of_nonneg_right hdiv (by norm_num)
          _ = (100 : ℚ) := by norm_num
          _ = ((100 : Int) : ℚ) := by norm_num
      refine ⟨ensureRatioFix meat veg, rfl, ?_⟩
      unfold ensureRatioFix
      rcases le_total (100 - meat - veg) 0 with hc0 | hc0
      · rw [max_eq_left hc0]
        split_ifs with hne
        · have hrw : meat + (100 - (meat + veg + 0)) = 100 - veg := by ring
          rw [hrw, max_eq_right (by omega)]
          refine ⟨?_, ?_, ?_, ?_⟩ <;> dsimp only <;> omega
        · refine ⟨?_, ?_, ?_, ?_⟩ <;> dsimp only <;> omega
      · rw [max_eq_right hc0]
        split_ifs with hne
        · omega
        · refine ⟨?_, ?_, ?_, ?_⟩ <;> dsimp only <;> omega

/-- C3 witness: the theorem applied at `(50, 35, 15)` (already normalized)
and at `(40, 40, 40)` (sum 120). -/
theorem C3_witness :
    ensure_ratio_sum 50 35 15 = .ok (50, 35, 15) ∧
    ∃ t : Int × Int × Int, ensure_ratio_sum 40 40 40 = .ok t ∧
      t.1 + t.2.1 + t.2.2 = 100 ∧ 0 ≤ t.1 ∧ 0 ≤ t.2.1 ∧ 0 ≤ t.2.2 :=
  ⟨C3_normalize_correct.1 50 35 15 (by norm_num),
   C3_normalize_correct.2 40 40 40 (by norm_num) (by norm_num) (by norm_num)
     (by norm_num)⟩

theorem intercalate_go_last (x : String) :
    ∀ (as : List String) (acc : String),
      ∃ p, String.intercalate.go acc " " (as ++ [x]) = p ++ x
  | [], acc => ⟨acc ++ " ", rfl⟩
  | a :: as, acc => intercalate_go_last x as (acc ++ " " ++ a)

theorem intercalate_last (x : String) (l : List String) :
    ∃ p, String.intercalate " " (l ++ [x]) = p ++ x := by
  cases l with
  | nil => exact ⟨"", by simp [String.intercalate, String.intercalate.go]⟩
  | cons a as => exact intercalate_go_last x as a

theorem mem_filter_ne {l : List String} {p q : String} (h : q ≠ p) :
    (q ∈ l.filter (fun f => f ≠ p)) = (q ∈ l) := by
  simp [List.mem_filter, h]

def specBaseMult (age_years : ℚ) (neutered : Bool) : ℚ :=
  if age_years < 1 then (if neutered then 2.2 else 2.4)
  else if age_years < 7 then (if neutered then 1.6 else 1.8)
  else (if neutered then 1.3 else 1.4)

def specActivityMult (activity : String) : ℚ :=
  if activity = "Low" then 0.9
  else if activity = "Normal" then 1.0
  else if activity = "High" then 1.2
  else if activity = "Athletic/Working" then 1.35
  else 1.0

def specAdjFactor (flags : List String) : ℚ :=
  (if flagWeightLoss ∈ flags then (0.85 : ℚ) else 1) *
  (if flagPancreatitis ∈ flags then (0.95 : ℚ) else 1) *
  (if flagKidney ∈ flags then (0.95 : ℚ) else 1)

theorem mer_factor_eq_spec (a : ℚ) (act : String) (n : Bool) :
    mer_factor (age_to_life_stage a) act n = specBaseMult a n * specActivityMult act := by
  unfold mer_factor age_to_life_stage specBaseMult specActivityMult
  split_ifs <;> simp_all

theorem energy_adj3_eq_spec (fl : List String) :
    energy_adj3 fl = specAdjFactor fl := by
  unfold energy_adj3 energy_adj2 energy_adj1 specAdjFactor
  split_ifs <;> ring

/-- C4: `compute_daily_energy` returns RER `= 70 * weight^0.75` (the float
power modelled by `pow75`); MER `= RER * base * activity` with the base and
activity multiplier tables of the claim; adjusted MER `= MER * f` with `f`
the multiplicative stacking of 0.85 (weight loss), 0.95 (pancreatitis) and
0.95 (kidney); the picky-eater flag changes no number and appends its
rationale note to the explanation string. -/
theorem C4_energy_model (pow75 : ℚ → ℚ) (w a : ℚ) (act : String) (n : Bool)
    (flags : List String) (hw : 0 < w) (ha : 0 < a) :
    (compute_daily_energy pow75 w a act n flags).rer = 70 * pow75 w ∧
    (compute_daily_energy pow75 w a act n flags).mer =
      (compute_daily_energy pow75 w a act n flags).rer *
        (specBaseMult a n * specActivityMult act) ∧
    (compute_daily_energy pow75 w a act n flags).mer_adj =
      (compute_daily_energy pow75 w a act n flags).mer * specAdjFactor flags ∧
    ((compute_daily_energy pow75 w a act n
        (flags.filter (fun f => f ≠ flagPicky))).rer =
      (compute_daily_energy pow75 w a act n flags).rer ∧
     (compute_daily_energy pow75 w a act n
        (flags.filter (fun f => f ≠ flagPicky))).mer =
      (compute_daily_energy pow75 w a act n flags).mer ∧
     (compute_daily_energy pow75 w a act n
        (flags.filter (fun f => f ≠ flagPicky))).mer_adj =
      (compute_daily_energy pow75 w a act n flags).mer_adj) ∧
    (flagPicky ∈ flags →
      ∃ s, (compute_daily_energy pow75 w a act n flags).explanation =
        s ++ pickyNote) := by
  refine ⟨rfl, ?_, ?_, ⟨rfl, rfl, ?_⟩, ?_⟩
  · show calc_rer pow75 w * mer_factor (age_to_life_stage a) act n =
      calc_rer pow75 w * (specBaseMult a n * specActivityMult act)
    rw [mer_factor_eq_spec]
  · show calc_rer pow75 w * mer_factor (age_to_life_stage a) act n *
        energy_adj3 flags =
      calc_rer pow75 w * mer_factor (age_to_life_stage a) act n *
        specAdjFactor flags
    rw [energy_adj3_eq_spec]
  · show calc_rer pow75 w * mer_factor (age_to_life_stage a) act n *
        energy_adj3 (flags.filter (fun f => f ≠ flagPicky)) =
      calc_rer pow75 w * mer_factor (age_to_life_stage a) act n *
        energy_adj3 flags
    have h1 := mem_filter_ne (l := flags) (p := flagPicky)
      (q := flagWeightLoss) (by decide)
    have h2 := mem_filter_ne (l := flags) (p := flagPicky)
      (q := flagPancreatitis) (by decide)
    have h3 := mem_filter_ne (l := flags) (p := flagPicky)
      (q := flagKidney) (by decide)
    unfold energy_adj3 energy_adj2 energy_adj1
    simp only [h1, h2, h3]
  · intro hp
    show ∃ s, age_to_life_stage a ++
      (if energy_rationale4 flags ≠ [] then
        " | " ++ String.intercalate " " (energy_rationale4 flags)
      else "") = s ++ pickyNote
    rw [energy_rationale4, if_pos hp]
    obtain ⟨p, hps⟩ := intercalate_last pickyNote (energy_rationale3 flags)
    rw [if_pos (by simp), hps]
    exact ⟨age_to_life_stage a ++ (" | " ++ p), by
      rw [String.append_assoc, String.append_assoc]⟩


/-- C4 witness: the theorem applied at weight 10, age 3, "Normal" activity,
neutered, flags `[picky]`. -/
theorem C4_witness :
    (compute_daily_energy (fun q => q) 10 3 "Normal" true [flagPicky]).rer =
      70 * 10 ∧
    ∃ s, (compute_daily_energy (fun q => q) 10 3 "Normal" true
      [flagPicky]).explanation = s ++ pickyNote := by
  obtain ⟨h1, _, _, _, h5⟩ := C4_energy_model (fun q => q) 10 3 "Normal" true
    [flagPicky] (by norm_num) (by norm_num)
  exact ⟨h1, h5 (by simp)⟩

/-! ### Claim C5: preference aggregation -/

/-- C5: `get_preference_maps` looks only at the target dog's entries, returns
two empty maps when there are none, scores Dislike/Neutral/Like/Love as
0/1/2/3, maps each ingredient named in a non-null Protein (resp. Veg) field
to the mean of its entries' scores, and on the worked example
`[(A, Like), (A, Love)]` for dog1 (plus a dog2 entry) yields `A ↦ 5/2`. -/
theorem C5_preference_aggregation :
    (∀ (log : List TasteEntry) (d : String),
      log.filter (fun e => e.dog_id = d) = [] →
      get_preference_maps log d = (fun _ => none, fun _ => none)) ∧
    (∀ (log : List TasteEntry) (d : String),
      get_preference_maps (log.filter (fun e => e.dog_id = d)) d =
        get_preference_maps log d) ∧
    (pref_score_from_label "Dislike" = 0 ∧ pref_score_from_label "Neutral" = 1 ∧
     pref_score_from_label "Like" = 2 ∧ pref_score_from_label "Love" = 3) ∧
    (∀ (log : List TasteEntry) (d name : String),
      (get_preference_maps log d).1 name =
        groupMean (((log.filter (fun e => e.dog_id = d)).filter
          (fun e => e.protein = some name)).map
            (fun e => pref_score_from_label e.preference)) ∧
      (get_preference_maps log d).2 name =
        groupMean (((log.filter (fun e => e.dog_id = d)).filter
          (fun e => e.veg = some name)).map
            (fun e => pref_score_from_label e.preference))) ∧
    ((get_preference_maps
        [⟨"dog1", some "A", none, "Like"⟩, ⟨"dog1", some "A", none, "Love"⟩,
         ⟨"dog2", some "A", none, "Dislike"⟩] "dog1").1 "A" = some (5/2)) := by
  refine ⟨?_, ?_, ⟨rfl, rfl, rfl, rfl⟩, ?_, ?_⟩
  · intro log d h
    unfold get_preference_maps
    rw [h]
    rfl
  · intro log d
    unfold get_preference_maps
    rw [List.filter_filter]
    simp only [Bool.and_self]
  · intro log d name
    unfold get_preference_maps preference_maps_of
    split_ifs with h
    · rw [h]
      simp [groupMean]
    · exact ⟨rfl, rfl⟩
  · unfold get_preference_maps
    have hfil : List.filter (fun e => decide (e.dog_id = "dog1"))
        ([⟨"dog1", some "A", none, "Like"⟩, ⟨"dog1", some "A", none, "Love"⟩,
          ⟨"dog2", some "A", none, "Dislike"⟩] : List TasteEntry) =
        [⟨"dog1", some "A", none, "Like"⟩, ⟨"dog1", some "A", none, "Love"⟩] := by
      decide
    rw [hfil]
    unfold preference_maps_of
    rw [if_neg (by decide)]
    dsimp only
    have hfil2 : List.filter (fun e => decide (e.protein = some "A"))
        ([⟨"dog1", some "A", none, "Like"⟩, ⟨"dog1", some "A", none, "Love"⟩] :
          List TasteEntry) =
        [⟨"dog1", some "A", none, "Like"⟩, ⟨"dog1", some "A", none, "Love"⟩] := by
      decide
    rw [hfil2]
    simp [groupMean, pref_score_from_label]
    norm_num

/-- C5 witness: the empty-filter clause applied at a one-entry log for a
different dog, plus the worked example from the theorem. -/
theorem C5_witness :
    get_preference_maps [⟨"dog2", some "A", none, "Like"⟩] "dog1" =
      (fun _ => none, fun _ => none) ∧
    (get_preference_maps
        [⟨"dog1", some "A", none, "Like"⟩, ⟨"dog1", some "A", none, "Love"⟩,
         ⟨"dog2", some "A", none, "Dislike"⟩] "dog1").1 "A" = some (5/2) :=
  ⟨C5_preference_aggregation.1 [⟨"dog2", some "A", none, "Like"⟩] "dog1"
    (by decide),
   C5_preference_aggregation.2.2.2.2⟩

/-! ### Properties of `weighted_choice` -/

theorem wcWalk_mem {r : ℚ} :
    ∀ {pairs : List (String × ℚ)} {acc : ℚ} {x : String},
      wcWalk r acc pairs = some x → x ∈ pairs.map Prod.fst := by
  intro pairs
  induction pairs with
  | nil => intro acc x h; simp [wcWalk] at h
  | cons p rest ih =>
    intro acc x h
    rw [wcWalk] at h
    split_ifs at h with hle
    · simp only [Option.some.injEq] at h
      simp [← h]
    · simpa using Or.inr (ih h)

theorem weighted_choice_mem {rng : Rng} {items : List String}
    {weights : List ℚ} {x : String} {rng' : Rng}
    (h : weighted_choice rng items weights = .ok (x, rng')) : x ∈ items := by
  unfold weighted_choice at h
  split at h
  · exact absurd h (by simp)
  · rename_i hne
    split_ifs at h with hlen htot
    · exact Rng.choice_mem h
    · revert h
      split
      · rename_i y hy
        intro h
        simp only [Except.ok.injEq, Prod.mk.injEq] at h
        have hm := wcWalk_mem hy
        rw [List.map_fst_zip items weights (by omega)] at hm
        rw [← h.1]
        exact hm
      · intro h
        simp only [Except.ok.injEq, Prod.mk.injEq] at h
        rw [← h.1]
        exact List.getLast_mem hne

theorem weighted_choice_isOk (rng : Rng) {items : List String}
    {weights : List ℚ} (h1 : items ≠ []) (h2 : items.length = weights.length) :
    ∃ x rng', weighted_choice rng items weights = .ok (x, rng') := by
  unfold weighted_choice
  rw [dif_neg h1, if_neg (by omega)]
  split_ifs with htot
  · unfold Rng.choice
    rw [dif_neg h1]
    exact ⟨_, _, rfl⟩
  · split
    · exact ⟨_, _, rfl⟩
    · exact ⟨_, _, rfl⟩

theorem max_zero_idem (w : ℚ) : max 0 (max 0 w) = max 0 w := by
  rw [← max_assoc, max_self]

/-- C10: `weighted_choice` raises `ValueError` exactly when items is empty or
the lengths mismatch; otherwise it returns a member of `items`; negative
weights are clamped to 0; and a non-positive clamped total falls back to a
uniform choice over items. -/
theorem C10_weighted_choice_contract :
    (∀ (rng : Rng) (items : List String) (weights : List ℚ),
      (∃ e, weighted_choice rng items weights = .error e) ↔
        (items = [] ∨ items.length ≠ weights.length)) ∧
    (∀ (rng : Rng) (items : List String) (weights : List ℚ),
      items ≠ [] → items.length = weights.length →
      ∃ x rng', weighted_choice rng items weights = .ok (x, rng') ∧
        x ∈ items) ∧
    (∀ (rng : Rng) (items : List String) (weights : List ℚ),
      weighted_choice rng items (weights.map (fun w => max 0 w)) =
        weighted_choice rng items weights) ∧
    (∀ (rng : Rng) (items : List String) (weights : List ℚ),
      items ≠ [] → items.length = weights.length →
      (weights.map (fun w => max 0 w)).sum ≤ 0 →
      weighted_choice rng items weights = rng.choice items) := by
  refine ⟨?_, ?_, ?_, ?_⟩
  · intro rng items weights
    constructor
    · rintro ⟨e, he⟩
      by_contra hc
      push_neg at hc
      obtain ⟨hx, hrng⟩ := weighted_choice_isOk rng hc.1 hc.2
      rw [hrng.choose_spec] at he
      exact absurd he (by simp)
    · intro h
      rcases eq_or_ne items [] with h0 | h0
      · exact ⟨"weighted_choice received empty items", by
          unfold weighted_choice; rw [dif_pos h0]⟩
      · have hmis : items.length ≠ weights.length := by tauto
        exact ⟨"weighted_choice items/weights length mismatch", by
          unfold weighted_choice; rw [dif_neg h0, if_pos hmis]⟩
  · intro rng items weights h1 h2
    obtain ⟨x, rng', hok⟩ := weighted_choice_isOk rng h1 h2
    exact ⟨x, rng', hok, weighted_choice_mem hok⟩
  · intro rng items weights
    unfold weighted_choice
    rcases eq_or_ne items [] with h | h
    · rw [dif_pos h, dif_pos h]
    · rw [dif_neg h, dif_neg h, List.length_map]
      rcases eq_or_ne items.length weights.length with hl | hl
      · have hcond : ¬(items.length ≠ weights.length) := by omega
        simp only [if_neg hcond]
        have hmm : (weights.map (fun w => max 0 w)).map (fun w => max 0 w) =
            weights.map (fun w => max 0 w) := by
          rw [List.map_map]
          exact List.map_congr_left (fun w _ => max_zero_idem w)
        rw [hmm]
        split_ifs with htot
        · rfl
        · have hzip : items.zip (weights.map (fun w => max 0 w)) =
              (items.zip weights).map (Prod.map id (fun w => max 0 w)) :=
            List.zip_map_right _ items weights
          rw [hzip]
          have hwalk : ∀ (pairs : List (String × ℚ)) (acc : ℚ),
              wcWalk (rng.random.1 * (weights.map (fun w => max 0 w)).sum) acc
                (pairs.map (Prod.map id (fun w => max 0 w))) =
              wcWalk (rng.random.1 * (weights.map (fun w => max 0 w)).sum) acc
                pairs := by
            intro pairs
            induction pairs with
            | nil => intro acc; simp [wcWalk]
            | cons p rest ih =>
              intro acc
              rw [List.map_cons, wcWalk, wcWalk]
              simp only [Prod.map, id]
              rw [max_zero_idem, ih]
          rw [hwalk]
      · simp only [if_pos hl]
  · intro rng items weights h1 h2 h3
    unfold weighted_choice
    rw [dif_neg h1, if_neg (by omega), if_pos h3]

/-- C10 witness: the contract applied at `["a", "b"]` with weights `[1, 1]`
(a successful member draw) and with weights `[-1, 0]` (clamped total 0,
uniform fallback), and the error clause at `[]`. -/
theorem C10_witness :
    (∃ e, weighted_choice ⟨fun _ => 0, 0⟩ [] [] = .error e) ∧
    (∃ x rng', weighted_choice ⟨fun _ => 0, 0⟩ ["a", "b"] [1, 1] =
      .ok (x, rng') ∧ x ∈ ["a", "b"]) ∧
    weighted_choice ⟨fun _ => 0, 0⟩ ["a", "b"] [-1, 0] =
      Rng.choice ⟨fun _ => 0, 0⟩ ["a", "b"] := by
  refine ⟨(C10_weighted_choice_contract.1 _ _ _).mpr (Or.inl rfl), ?_, ?_⟩
  · exact C10_weighted_choice_contract.2.1 _ _ _ (by simp) (by simp)
  · refine C10_weighted_choice_contract.2.2.2 _ _ _ (by simp) (by simp) ?_
    norm_num

/-! ### Claim C2: behaviour on an empty candidate set -/

theorem dedupe_ne_nil {l : List String} (h : l ≠ []) : dedupe l ≠ [] := by
  cases l with
  | nil => exact absurd rfl h
  | cons x xs => rw [dedupe]; simp

theorem build_pool_ne_nil (pantry recs catalog : List String)
    (allow_new : Bool) (h : catalog ≠ []) :
    build_pool pantry recs catalog allow_new ≠ [] := by
  unfold build_pool
  split_ifs with h1 h2
  · apply dedupe_ne_nil
    simp [h]
  · exact h
  · exact h2

/-- C2 counterexample: with an empty candidate pool, `choose` does not fail
with an error — it silently returns a substitute ingredient drawn from the
full meat catalog ("Chicken (lean, cooked)" for the all-zero stream). -/
theorem C2_counterexample :
    (choose ⟨fun _ => 0, 0⟩ [] none none false (fun _ => none)).map Prod.fst =
      .ok "Chicken (lean, cooked)" := by
  unfold choose
  rw [if_pos rfl]
  unfold Rng.choice
  rw [dif_neg (by decide : all_meats ≠ [])]
  rfl

/-- C2 (amended): `weighted_choice` does raise `ValueError` on an empty
candidate list, and inside `pick_rotation_smart` the constructed per-category
pools are never empty (given the non-empty static catalog), so a per-day
selection never sees an empty candidate set; but `choose` itself, handed an
empty pool, silently substitutes a uniform random ingredient from the full
MEAT catalog (even for the vegetable category) instead of failing — refuting
the claim as stated (see `C2_counterexample`). -/
theorem C2_empty_candidates :
    (∀ (rng : Rng) (weights : List ℚ),
      weighted_choice rng [] weights = .error
        "weighted_choice received empty items") ∧
    (∀ (rng : Rng) (last last2 : Option String) (utw : Bool)
        (tm : String → Option ℚ),
      ∃ x rng', choose rng [] last last2 utw tm = .ok (x, rng') ∧
        x ∈ all_meats) ∧
    (∀ (pantry recs catalog : List String) (allow_new : Bool),
      catalog ≠ [] → build_pool pantry recs catalog allow_new ≠ []) := by
  refine ⟨?_, ?_, build_pool_ne_nil⟩
  · intro rng weights
    unfold weighted_choice
    rw [dif_pos rfl]
  · intro rng last last2 utw tm
    unfold choose
    rw [if_pos rfl]
    unfold Rng.choice
    rw [dif_neg (by decide : all_meats ≠ [])]
    exact ⟨_, _, rfl, List.get_mem _ _ _⟩

/-- C2 witness: the amended theorem applied at the all-zero stream, an empty
pantry and the meat catalog. -/
theorem C2_witness :
    weighted_choice ⟨fun _ => 0, 0⟩ [] [] = .error
      "weighted_choice received empty items" ∧
    (∃ x rng', choose ⟨fun _ => 0, 0⟩ [] none none false (fun _ => none) =
      .ok (x, rng') ∧ x ∈ all_meats) ∧
    build_pool [] [] all_meats false ≠ [] :=
  ⟨C2_empty_candidates.1 ⟨fun _ => 0, 0⟩ [],
   C2_empty_candidates.2.1 ⟨fun _ => 0, 0⟩ none none false (fun _ => none),
   C2_empty_candidates.2.2 [] [] all_meats false (by decide)⟩

/-! ### Claim C7: the soft anti-repeat step -/

/-- C7 counterexample: on the two-element candidate set `["a", "b"]` with
previous-day pick `"b"`, the code removes `"b"` (leaving a single candidate)
even though removing it does NOT leave more than one candidate — the code
tests `len(candidates) > 1` before removal, not after. -/
theorem C7_counterexample :
    soft_repeat_filter ["a", "b"] (some "b") = ["a"] ∧
    ¬(1 < (List.filter (fun x => x ≠ "b") ["a", "b"]).length) := by
  constructor
  · rfl
  · decide

/-- C7 (amended): the soft anti-repeat step removes the previous-day pick
exactly when there is one (a non-empty string), the candidate set BEFORE
removal has more than one element, and removal does not empty the set;
otherwise the candidate set is returned unchanged (so the previous pick, if
present, remains).  The original "removing it would leave more than one
candidate" reading is refuted by `C7_counterexample`. -/
theorem C7_soft_repeat (cands : List String) (l : String) (hl : l ≠ "") :
    (1 < cands.length ∧ cands.filter (fun x => x ≠ l) ≠ [] →
      soft_repeat_filter cands (some l) = cands.filter (fun x => x ≠ l)) ∧
    (¬(1 < cands.length ∧ cands.filter (fun x => x ≠ l) ≠ []) →
      soft_repeat_filter cands (some l) = cands) ∧
    soft_repeat_filter cands none = cands := by
  refine ⟨?_, ?_, rfl⟩
  · rintro ⟨h1, h2⟩
    simp only [soft_repeat_filter]
    rw [if_pos ⟨hl, h1⟩, if_neg h2]
  · intro h
    push_neg at h
    simp only [soft_repeat_filter]
    by_cases hc : 1 < cands.length
    · rw [if_pos ⟨hl, hc⟩, if_pos (h hc)]
    · rw [if_neg (by tauto)]

/-- C7 witness: removal fires on `["a", "b", "c"]` with previous pick `"c"`,
and yields on the singleton `["a"]` with previous pick `"a"`. -/
theorem C7_witness :
    soft_repeat_filter ["a", "b", "c"] (some "c") =
      List.filter (fun x => x ≠ "c") ["a", "b", "c"] ∧
    soft_repeat_filter ["a"] (some "a") = ["a"] :=
  ⟨(C7_soft_repeat ["a", "b", "c"] "c" (by decide)).1 ⟨by decide, by decide⟩,
   (C7_soft_repeat ["a"] "a" (by decide)).2.1 (by decide)⟩

/-! ### Properties of `choose` -/

theorem double_repeat_filter_subset {cands : List String}
    {l1 l2 : Option String} {x : String}
    (h : x ∈ double_repeat_filter cands l1 l2) : x ∈ cands := by
  cases l1 with
  | none => exact h
  | some l =>
    cases l2 with
    | none => exact h
    | some l2 =>
      simp only [double_repeat_filter] at h
      split_ifs at h with h1 h2
      · exact h
      · exact (List.mem_filter.mp h).1
      · exact h

theorem soft_repeat_filter_subset {cands : List String} {l1 : Option String}
    {x : String} (h : x ∈ soft_repeat_filter cands l1) : x ∈ cands := by
  cases l1 with
  | none => exact h
  | some l =>
    simp only [soft_repeat_filter] at h
    split_ifs at h with h1 h2
    · exact h
    · exact (List.mem_filter.mp h).1
    · exact h

theorem choose_mem {rng : Rng} {pool : List String} {last last2 : Option String}
    {utw : Bool} {tm : String → Option ℚ} {x : String} {rng' : Rng}
    (hpool : pool ≠ [])
    (h : choose rng pool last last2 utw tm = .ok (x, rng')) : x ∈ pool := by
  unfold choose at h
  rw [if_neg hpool] at h
  exact double_repeat_filter_subset (soft_repeat_filter_subset
    (weighted_choice_mem h))

theorem double_repeat_filter_ne {pool : List String} {l : String}
    (hl : l ≠ "") (hy : ∃ y ∈ pool, y ≠ l) :
    ∀ x ∈ double_repeat_filter pool (some l) (some l), x ≠ l := by
  simp only [double_repeat_filter]
  rw [if_pos ⟨hl, hl, trivial⟩]
  obtain ⟨y, hy1, hy2⟩ := hy
  have hne : pool.filter (fun z => z ≠ l) ≠ [] := by
    intro hc
    have hmem : y ∈ pool.filter (fun z => z ≠ l) := by
      simp [List.mem_filter, hy1, hy2]
    rw [hc] at hmem
    simp at hmem
  rw [if_neg hne]
  intro x hx
  have := (List.mem_filter.mp hx).2
  simpa using this

/-- After two identical picks, `choose` never returns that pick again as long
as the pool holds an alternative. -/
theorem choose_ne_double {rng : Rng} {pool : List String} {l : String}
    {utw : Bool} {tm : String → Option ℚ} {x : String} {rng' : Rng}
    (hl : l ≠ "") (hy : ∃ y ∈ pool, y ≠ l)
    (h : choose rng pool (some l) (some l) utw tm = .ok (x, rng')) :
    x ≠ l := by
  have hpool : pool ≠ [] := by
    rintro rfl
    obtain ⟨y, hy1, _⟩ := hy
    simp at hy1
  unfold choose at h
  rw [if_neg hpool] at h
  exact double_repeat_filter_ne hl hy x
    (soft_repeat_filter_subset (weighted_choice_mem h))

/-! ### The no-three-consecutive-repeats predicate -/

/-- No three consecutive equal entries in `p2, p1, l₀, l₁, …` (where `p2`
and `p1` stand for the selections of the two days before the list starts). -/
def noTripleAux : Option String → Option String → List String → Prop
  | _, _, [] => True
  | p2, p1, a :: rest => ¬(p2 = some a ∧ p1 = some a) ∧ noTripleAux p1 (some a) rest

theorem noTripleAux_get {l : List String} :
    ∀ {p2 p1 : Option String}, noTripleAux p2 p1 l →
      ∀ (i : Nat) (x : String),
        ¬(l.get? i = some x ∧ l.get? (i + 1) = some x ∧
          l.get? (i + 2) = some x) := by
  induction l with
  | nil =>
    intro p2 p1 _ i x hc
    simp at hc
  | cons a rest ih =>
    intro p2 p1 h i x hc
    match i with
    | Nat.succ j =>
      exact ih h.2 j x (by simpa using hc)
    | 0 =>
      obtain ⟨h0, h1, h2⟩ := hc
      simp only [List.get?_cons_zero, Option.some.injEq] at h0
      match rest, h.2 with
      | b :: rest2, h' =>
        simp only [List.get?_cons_succ, List.get?_cons_zero,
          Option.some.injEq] at h1
        match rest2, h'.2 with
        | c :: rest3, h'' =>
          simp only [List.get?_cons_succ, List.get?_cons_zero,
            Option.some.injEq] at h2
          exact h''.1 ⟨by rw [h0, h2], by rw [h1, h2]⟩

theorem rotation_loop_meat_noTriple
    (mp vp cp : List String) (utw : Bool) (tm tv : String → Option ℚ)
    (hne : ∀ x ∈ mp, x ≠ "") (hd : ∃ a ∈ mp, ∃ b ∈ mp, a ≠ b) :
    ∀ (d : Nat) (rng : Rng) (lm lm2 lv lv2 : Option String)
      (plan : List DayTriple) (rng' : Rng),
      (∀ s, lm = some s → s ∈ mp) → (∀ s, lm2 = some s → s ∈ mp) →
      rotation_loop mp vp cp utw tm tv d rng lm lm2 lv lv2 = .ok (plan, rng') →
      noTripleAux lm2 lm (plan.map DayTriple.meat) := by
  have hmp : mp ≠ [] := by
    rintro rfl
    obtain ⟨a, ha, _⟩ := hd
    simp at ha
  intro d
  induction d with
  | zero =>
    intro rng lm lm2 lv lv2 plan rng' hlm hlm2 h
    rw [rotation_loop] at h
    simp only [Except.ok.injEq, Prod.mk.injEq] at h
    rw [← h.1]
    exact trivial
  | succ d ih =>
    intro rng lm lm2 lv lv2 plan rng' hlm hlm2 h
    rw [rotation_loop] at h
    rcases hmeat : choose rng mp lm lm2 utw tm with e | mpair
    · rw [hmeat] at h
      exact absurd h (by simp)
    · obtain ⟨meat, rng1⟩ := mpair
      rw [hmeat] at h
      dsimp only at h
      rcases hveg : (if vp ≠ [] then choose rng1 vp lv lv2 utw tv
          else rng1.choice all_vegs) with e | vpair
      · rw [hveg] at h
        exact absurd h (by simp)
      · obtain ⟨veg, rng2⟩ := vpair
        rw [hveg] at h
        dsimp only at h
        rcases hcarb : (if cp ≠ [] then rng2.choice cp
            else rng2.choice all_carbs) with e | cpair
        · rw [hcarb] at h
          exact absurd h (by simp)
        · obtain ⟨carb, rng3⟩ := cpair
          rw [hcarb] at h
          dsimp only at h
          rcases hrest : rotation_loop mp vp cp utw tm tv d rng3 (some meat)
              lm (some veg) lv with e | rpair
          · rw [hrest] at h
            exact absurd h (by simp)
          · obtain ⟨rest, rng4⟩ := rpair
            rw [hrest] at h
            dsimp only at h
            simp only [Except.ok.injEq, Prod.mk.injEq] at h
            rw [← h.1]
            have hmm : meat ∈ mp := choose_mem hmp hmeat
            refine ⟨?_, ?_⟩
            · rintro ⟨hm2, hm1⟩
              have hmne : meat ≠ "" := hne meat hmm
              have hy : ∃ y ∈ mp, y ≠ meat := by
                obtain ⟨a, ha, b, hb, hab⟩ := hd
                by_cases ham : a = meat
                · exact ⟨b, hb, fun hbm => hab (by rw [ham, hbm])⟩
                · exact ⟨a, ha, ham⟩
              rw [hm1, hm2] at hmeat
              exact choose_ne_double hmne hy hmeat rfl
            · exact ih rng3 (some meat) lm (some veg) lv rest rng4
                (fun s hs => (Option.some.inj hs) ▸ hmm) hlm hrest

theorem rotation_loop_veg_noTriple
    (mp vp cp : List String) (utw : Bool) (tm tv : String → Option ℚ)
    (hne : ∀ x ∈ vp, x ≠ "") (hd : ∃ a ∈ vp, ∃ b ∈ vp, a ≠ b) :
    ∀ (d : Nat) (rng : Rng) (lm lm2 lv lv2 : Option String)
      (plan : List DayTriple) (rng' : Rng),
      (∀ s, lv = some s → s ∈ vp) → (∀ s, lv2 = some s → s ∈ vp) →
      rotation_loop mp vp cp utw tm tv d rng lm lm2 lv lv2 = .ok (plan, rng') →
      noTripleAux lv2 lv (plan.map DayTriple.veg) := by
  have hvp : vp ≠ [] := by
    rintro rfl
    obtain ⟨a, ha, _⟩ := hd
    simp at ha
  intro d
  induction d with
  | zero =>
    intro rng lm lm2 lv lv2 plan rng' hlv hlv2 h
    rw [rotation_loop] at h
    simp only [Except.ok.injEq, Prod.mk.injEq] at h
    rw [← h.1]
    exact trivial
  | succ d ih =>
    intro rng lm lm2 lv lv2 plan rng' hlv hlv2 h
    rw [rotation_loop] at h
    rcases hmeat : choose rng mp lm lm2 utw tm with e | mpair
    · rw [hmeat] at h
      exact absurd h (by simp)
    · obtain ⟨meat, rng1⟩ := mpair
      rw [hmeat] at h
      dsimp only at h
      rw [if_pos hvp] at h
      rcases hveg : choose rng1 vp lv lv2 utw tv with e | vpair
      · rw [hveg] at h
        exact absurd h (by simp)
      · obtain ⟨veg, rng2⟩ := vpair
        rw [hveg] at h
        dsimp only at h
        rcases hcarb : (if cp ≠ [] then rng2.choice cp
            else rng2.choice all_carbs) with e | cpair
        · rw [hcarb] at h
          exact absurd h (by simp)
        · obtain ⟨carb, rng3⟩ := cpair
          rw [hcarb] at h
          dsimp only at h
          rcases hrest : rotation_loop mp vp cp utw tm tv d rng3 (some meat)
              lm (some veg) lv with e | rpair
          · rw [hrest] at h
            exact absurd h (by simp)
          · obtain ⟨rest, rng4⟩ := rpair
            rw [hrest] at h
            dsimp only at h
            simp only [Except.ok.injEq, Prod.mk.injEq] at h
            rw [← h.1]
            have hvm : veg ∈ vp := choose_mem hvp hveg
            refine ⟨?_, ?_⟩
            · rintro ⟨hv2, hv1⟩
              have hvne : veg ≠ "" := hne veg hvm
              have hy : ∃ y ∈ vp, y ≠ veg := by
                obtain ⟨a, ha, b, hb, hab⟩ := hd
                by_cases hav : a = veg
                · exact ⟨b, hb, fun hbv => hab (by rw [hav, hbv])⟩
                · exact ⟨a, ha, hav⟩
              rw [hv1, hv2] at hveg
              exact choose_ne_double hvne hy hveg rfl
            · exact ih rng3 (some meat) lm (some veg) lv rest rng4
                (fun s hs => (Option.some.inj hs) ▸ hvm) hlv hrest

theorem rotation_loop_mem
    (mp vp cp : List String) (utw : Bool) (tm tv : String → Option ℚ) :
    ∀ (d : Nat) (rng : Rng) (lm lm2 lv lv2 : Option String)
      (plan : List DayTriple) (rng' : Rng),
      rotation_loop mp vp cp utw tm tv d rng lm lm2 lv lv2 = .ok (plan, rng') →
      ∀ day ∈ plan, (mp ≠ [] → day.meat ∈ mp) ∧ (vp ≠ [] → day.veg ∈ vp) ∧
        (cp ≠ [] → day.carb ∈ cp) := by
  intro d
  induction d with
  | zero =>
    intro rng lm lm2 lv lv2 plan rng' h day hday
    rw [rotation_loop] at h
    simp only [Except.ok.injEq, Prod.mk.injEq] at h
    rw [← h.1] at hday
    simp at hday
  | succ d ih =>
    intro rng lm lm2 lv lv2 plan rng' h day hday
    rw [rotation_loop] at h
    rcases hmeat : choose rng mp lm lm2 utw tm with e | mpair
    · rw [hmeat] at h
      exact absurd h (by simp)
    · obtain ⟨meat, rng1⟩ := mpair
      rw [hmeat] at h
      dsimp only at h
      rcases hveg : (if vp ≠ [] then choose rng1 vp lv lv2 utw tv
          else rng1.choice all_vegs) with e | vpair
      · rw [hveg] at h
        exact absurd h (by simp)
      · obtain ⟨veg, rng2⟩ := vpair
        rw [hveg] at h
        dsimp only at h
        rcases hcarb : (if cp ≠ [] then rng2.choice cp
            else rng2.choice all_carbs) with e | cpair
        · rw [hcarb] at h
          exact absurd h (by simp)
        · obtain ⟨carb, rng3⟩ := cpair
          rw [hcarb] at h
          dsimp only at h
          rcases hrest : rotation_loop mp vp cp utw tm tv d rng3 (some meat)
              lm (some veg) lv with e | rpair
          · rw [hrest] at h
            exact absurd h (by simp)
          · obtain ⟨rest, rng4⟩ := rpair
            rw [hrest] at h
            dsimp only at h
            simp only [Except.ok.injEq, Prod.mk.injEq] at h
            rw [← h.1] at hday
            cases hday with
            | head =>
              refine ⟨fun hmp => choose_mem hmp hmeat, fun hvp => ?_,
                fun hcp => ?_⟩
              · rw [if_pos hvp] at hveg
                exact choose_mem hvp hveg
              · rw [if_pos hcp] at hcarb
                exact Rng.choice_mem hcarb
            | tail _ hday =>
              exact ih rng3 (some meat) lm (some veg) lv rest rng4 hrest
                day hday


/-! ### Claims C6 and C8: anti-repeat and singleton-pool behaviour -/

/-- C6: in every rotation produced by `pick_rotation_smart`, if the
constructed meat (resp. vegetable) pool holds at least two distinct
(non-empty-string) ingredient names, no ingredient appears in that category
on three consecutive days: after two identical picks the pick is removed
from the candidate set. -/
theorem C6_no_triple_repeat (mt : Int → Nat → Nat)
    (pm pv pc : List String) (an : Bool) (rm rv rc : List String)
    (tmm tvm : String → Option ℚ) (utw : Bool) (days : Nat)
    (seed : Option Int) (plan : List DayTriple)
    (h : pick_rotation_smart mt pm pv pc an rm rv rc tmm tvm utw days seed =
      .ok plan) :
    ((∀ x ∈ build_pool pm rm all_meats an, x ≠ "") →
     (∃ a ∈ build_pool pm rm all_meats an,
      ∃ b ∈ build_pool pm rm all_meats an, a ≠ b) →
     ∀ (i : Nat) (x : String),
       ¬((plan.map DayTriple.meat).get? i = some x ∧
         (plan.map DayTriple.meat).get? (i + 1) = some x ∧
         (plan.map DayTriple.meat).get? (i + 2) = some x)) ∧
    ((∀ x ∈ build_pool pv rv all_vegs an, x ≠ "") →
     (∃ a ∈ build_pool pv rv all_vegs an,
      ∃ b ∈ build_pool pv rv all_vegs an, a ≠ b) →
     ∀ (i : Nat) (x : String),
       ¬((plan.map DayTriple.veg).get? i = some x ∧
         (plan.map DayTriple.veg).get? (i + 1) = some x ∧
         (plan.map DayTriple.veg).get? (i + 2) = some x)) := by
  simp only [pick_rotation_smart] at h
  rcases hloop : rotation_loop (build_pool pm rm all_meats an)
      (build_pool pv rv all_vegs an) (build_pool pc rc all_carbs an)
      utw tmm tvm days ⟨mt (seed.getD 42), 0⟩ none none none none
    with e | lpair
  · rw [hloop] at h
    exact absurd h (by simp)
  · obtain ⟨plan0, rngF⟩ := lpair
    rw [hloop] at h
    dsimp only at h
    simp only [Except.ok.injEq] at h
    rw [← h] at *
    constructor
    · intro hne hd
      exact noTripleAux_get
        (rotation_loop_meat_noTriple _ _ _ _ _ _ hne hd days _ none none
          none none plan0 rngF (fun s hs => nomatch hs)
          (fun s hs => nomatch hs) hloop)
    · intro hne hd
      exact noTripleAux_get
        (rotation_loop_veg_noTriple _ _ _ _ _ _ hne hd days _ none none
          none none plan0 rngF (fun s hs => nomatch hs)
          (fun s hs => nomatch hs) hloop)

/-- C6 witness: a concrete 3-day run over the two-meat pantry
`[Chicken, Turkey]` and two-veg pantry `[Pumpkin, Zucchini]`, with the
no-three-consecutive conclusions obtained from the theorem. -/
theorem C6_witness :
    ∃ plan, pick_rotation_smart (fun _ _ => 0)
      ["Chicken (lean, cooked)", "Turkey (lean, cooked)"]
      ["Pumpkin (cooked)", "Zucchini (cooked)"] ["Oats (cooked)"] false
      [] [] [] (fun _ => none) (fun _ => none) false 3 (some 5) = .ok plan ∧
    (∀ (i : Nat) (x : String),
      ¬((plan.map DayTriple.meat).get? i = some x ∧
        (plan.map DayTriple.meat).get? (i + 1) = some x ∧
        (plan.map DayTriple.meat).get? (i + 2) = some x)) ∧
    (∀ (i : Nat) (x : String),
      ¬((plan.map DayTriple.veg).get? i = some x ∧
        (plan.map DayTriple.veg).get? (i + 1) = some x ∧
        (plan.map DayTriple.veg).get? (i + 2) = some x)) := by
  have h : pick_rotation_smart (fun _ _ => 0)
      ["Chicken (lean, cooked)", "Turkey (lean, cooked)"]
      ["Pumpkin (cooked)", "Zucchini (cooked)"] ["Oats (cooked)"] false
      [] [] [] (fun _ => none) (fun _ => none) false 3 (some 5) =
      .ok [⟨"Chicken (lean, cooked)", "Pumpkin (cooked)", "Oats (cooked)"⟩,
           ⟨"Turkey (lean, cooked)", "Zucchini (cooked)", "Oats (cooked)"⟩,
           ⟨"Chicken (lean, cooked)", "Pumpkin (cooked)", "Oats (cooked)"⟩] := by
    simp +decide [pick_rotation_smart, rotation_loop, choose, build_pool,
      weighted_choice, wcWalk, taste_weight, soft_repeat_filter,
      double_repeat_filter, Rng.choice, Rng.random, Rng.next, randDenom]
  have hc := C6_no_triple_repeat (fun _ _ => 0)
    ["Chicken (lean, cooked)", "Turkey (lean, cooked)"]
    ["Pumpkin (cooked)", "Zucchini (cooked)"] ["Oats (cooked)"] false
    [] [] [] (fun _ => none) (fun _ => none) false 3 (some 5) _ h
  exact ⟨_, h, hc.1 (by decide) (by decide), hc.2 (by decide) (by decide)⟩

/-- C8: if the constructed candidate pool of a category is a single
ingredient, every day of the rotation selects that ingredient for that
category (the anti-repeat filters yield rather than empty the pool). -/
theorem C8_singleton_pool (mt : Int → Nat → Nat)
    (pm pv pc : List String) (an : Bool) (rm rv rc : List String)
    (tmm tvm : String → Option ℚ) (utw : Bool) (days : Nat)
    (seed : Option Int) (plan : List DayTriple)
    (h : pick_rotation_smart mt pm pv pc an rm rv rc tmm tvm utw days seed =
      .ok plan) :
    (∀ x, build_pool pm rm all_meats an = [x] →
      ∀ day ∈ plan, day.meat = x) ∧
    (∀ x, build_pool pv rv all_vegs an = [x] → ∀ day ∈ plan, day.veg = x) ∧
    (∀ x, build_pool pc rc all_carbs an = [x] →
      ∀ day ∈ plan, day.carb = x) := by
  simp only [pick_rotation_smart] at h
  rcases hloop : rotation_loop (build_pool pm rm all_meats an)
      (build_pool pv rv all_vegs an) (build_pool pc rc all_carbs an)
      utw tmm tvm days ⟨mt (seed.getD 42), 0⟩ none none none none
    with e | lpair
  · rw [hloop] at h
    exact absurd h (by simp)
  · obtain ⟨plan0, rngF⟩ := lpair
    rw [hloop] at h
    dsimp only at h
    simp only [Except.ok.injEq] at h
    rw [← h] at *
    have hmem := rotation_loop_mem (build_pool pm rm all_meats an)
      (build_pool pv rv all_vegs an) (build_pool pc rc all_carbs an)
      utw tmm tvm days ⟨mt (seed.getD 42), 0⟩ none none none none
      plan0 rngF hloop
    refine ⟨?_, ?_, ?_⟩
    · intro x hx day hday
      have := ((hmem day hday).1 (by rw [hx]; simp))
      rw [hx] at this
      simpa using this
    · intro x hx day hday
      have := ((hmem day hday).2.1 (by rw [hx]; simp))
      rw [hx] at this
      simpa using this
    · intro x hx day hday
      have := ((hmem day hday).2.2 (by rw [hx]; simp))
      rw [hx] at this
      simpa using this

/-- C8 witness: a concrete 3-day run with singleton pools in all three
categories; every day repeats the single ingredient. -/
theorem C8_witness :
    ∃ plan, pick_rotation_smart (fun _ _ => 0) ["Chicken (lean, cooked)"]
      ["Pumpkin (cooked)"] ["Oats (cooked)"] false [] [] []
      (fun _ => none) (fun _ => none) false 3 (some 5) = .ok plan ∧
    (∀ day ∈ plan, day.meat = "Chicken (lean, cooked)") ∧
    (∀ day ∈ plan, day.veg = "Pumpkin (cooked)") ∧
    (∀ day ∈ plan, day.carb = "Oats (cooked)") := by
  have h : pick_rotation_smart (fun _ _ => 0) ["Chicken (lean, cooked)"]
      ["Pumpkin (cooked)"] ["Oats (cooked)"] false [] [] []
      (fun _ => none) (fun _ => none) false 3 (some 5) =
      .ok (List.replicate 3
        ⟨"Chicken (lean, cooked)", "Pumpkin (cooked)", "Oats (cooked)"⟩) := by
    norm_num [pick_rotation_smart, rotation_loop, choose, build_pool,
      weighted_choice, wcWalk, taste_weight, soft_repeat_filter,
      double_repeat_filter, Rng.choice, Rng.random, Rng.next, randDenom,
      List.replicate]
  have hc := C8_singleton_pool (fun _ _ => 0) ["Chicken (lean, cooked)"]
    ["Pumpkin (cooked)"] ["Oats (cooked)"] false [] [] []
    (fun _ => none) (fun _ => none) false 3 (some 5) _ h
  exact ⟨_, h, hc.1 _ (by decide), hc.2.1 _ (by decide), hc.2.2 _ (by decide)⟩

/-! ### Claim C1: determinism of the weekly rotation -/

/-- C1: two calls of `pick_rotation_smart` with identical inputs (pools,
allow-new flag, recommendations, taste maps, use-taste-weights flag) and the
same seed over the same seeded PRNG family return identical 7-day sequences:
the generator draws all randomness from the seed-determined stream. -/
theorem C1_rotation_deterministic (mt : Int → Nat → Nat)
    (pm pv pc pm' pv' pc' : List String) (an an' : Bool)
    (rm rv rc rm' rv' rc' : List String)
    (tmm tvm tmm' tvm' : String → Option ℚ) (utw utw' : Bool)
    (seed seed' : Option Int)
    (h1 : pm = pm') (h2 : pv = pv') (h3 : pc = pc') (h4 : an = an')
    (h5 : rm = rm') (h6 : rv = rv') (h7 : rc = rc') (h8 : tmm = tmm')
    (h9 : tvm = tvm') (h10 : utw = utw') (h11 : seed = seed') :
    pick_rotation_smart mt pm pv pc an rm rv rc tmm tvm utw 7 seed =
      pick_rotation_smart mt pm' pv' pc' an' rm' rv' rc' tmm' tvm' utw' 7
        seed' := by
  subst h1 h2 h3 h4 h5 h6 h7 h8 h9 h10 h11
  rfl

/-- C1 witness: the theorem applied at a concrete argument list. -/
theorem C1_witness :
    pick_rotation_smart (fun _ _ => 0) ["Chicken (lean, cooked)"] [] [] false
      [] [] [] (fun _ => none) (fun _ => none) false 7 (some 5) =
    pick_rotation_smart (fun _ _ => 0) ["Chicken (lean, cooked)"] [] [] false
      [] [] [] (fun _ => none) (fun _ => none) false 7 (some 5) :=
  C1_rotation_deterministic (fun _ _ => 0) ["Chicken (lean, cooked)"] [] []
    ["Chicken (lean, cooked)"] [] [] false false [] [] [] [] [] []
    (fun _ => none) (fun _ => none) (fun _ => none) (fun _ => none)
    false false (some 5) (some 5) rfl rfl rfl rfl rfl rfl rfl rfl rfl rfl rfl

/-! ### Claim C9: the weekly shopping list -/

/-- Lookup in the insertion-ordered totals dict. -/
def alookup (name : String) : List (String × ℚ) → Option ℚ
  | [] => none
  | (k, v) :: rest => if name = k then some v else alookup name rest

/-- Grams allocated to `name` by one plan row (spec side). -/
def rowGrams (row : PlanRow) (name : String) : ℚ :=
  (if row.meat = name then row.meat_g else 0) +
  (if row.veg = name then row.veg_g else 0) +
  (if row.carb = name then row.carb_g else 0)

/-- Total grams allocated to `name` over the plan (spec side). -/
def weekGrams (plan : List PlanRow) (name : String) : ℚ :=
  (plan.map (fun r => rowGrams r name)).sum

/-- Does `name` appear in some category field of some day? -/
def appearsBool (plan : List PlanRow) (name : String) : Bool :=
  plan.any (fun row => row.meat == name || row.veg == name || row.carb == name)

theorem alookup_upsert_self (t : List (String × ℚ)) (n : String) (g : ℚ) :
    alookup n (upsert t n g) = some ((alookup n t).getD 0 + g) := by
  induction t with
  | nil => simp [upsert, alookup]
  | cons p rest ih =>
    obtain ⟨k, v⟩ := p
    by_cases hk : k = n
    · subst hk
      simp [upsert, alookup]
    · rw [upsert]
      rw [if_neg hk, alookup, if_neg (fun hc => hk hc.symm), ih, alookup,
        if_neg (fun hc => hk hc.symm)]

theorem alookup_upsert_other {n' n : String} (h : n' ≠ n)
    (t : List (String × ℚ)) (g : ℚ) :
    alookup n' (upsert t n g) = alookup n' t := by
  induction t with
  | nil => simp [upsert, alookup, h]
  | cons p rest ih =>
    obtain ⟨k, v⟩ := p
    by_cases hk : k = n
    · subst hk
      rw [upsert, if_pos rfl, alookup, alookup, if_neg h, if_neg h]
    · rw [upsert, if_neg hk, alookup, alookup, ih]

theorem getD_add_item {name : String} (h1 : name ≠ "") (h2 : name ≠ "—")
    (t : List (String × ℚ)) (n : String) (g : ℚ) :
    (alookup name (add_item t n g)).getD 0 =
      (alookup name t).getD 0 + (if n = name then g else 0) := by
  by_cases hn : n = name
  · subst hn
    unfold add_item
    rw [if_neg (by simp [h1, h2]), alookup_upsert_self]
    simp
  · unfold add_item
    split_ifs with hb
    · simp [hn]
    · rw [alookup_upsert_other (fun hc => hn hc.symm)]
      simp [hn]

theorem isSome_add_item {name : String} (h1 : name ≠ "") (h2 : name ≠ "—")
    (t : List (String × ℚ)) (n : String) (g : ℚ) :
    (alookup name (add_item t n g)).isSome =
      ((alookup name t).isSome || (n == name)) := by
  by_cases hn : n = name
  · subst hn
    unfold add_item
    rw [if_neg (by simp [h1, h2]), alookup_upsert_self]
    simp
  · have hbeq : (n == name) = false := by simp [hn]
    unfold add_item
    split_ifs with hb
    · simp [hbeq]
    · rw [alookup_upsert_other (fun hc => hn hc.symm)]
      simp [hbeq]

/-- One plan row's worth of `add_item` calls. -/
def totalsStep (t : List (String × ℚ)) (row : PlanRow) : List (String × ℚ) :=
  add_item (add_item (add_item t row.meat row.meat_g) row.veg row.veg_g)
    row.carb row.carb_g

theorem week_totals_eq_foldl (plan : List PlanRow) :
    week_totals plan = plan.foldl totalsStep [] := rfl

theorem getD_totalsStep {name : String} (h1 : name ≠ "") (h2 : name ≠ "—")
    (t : List (String × ℚ)) (row : PlanRow) :
    (alookup name (totalsStep t row)).getD 0 =
      (alookup name t).getD 0 + rowGrams row name := by
  unfold totalsStep rowGrams
  rw [getD_add_item h1 h2, getD_add_item h1 h2, getD_add_item h1 h2]
  ring

theorem isSome_totalsStep {name : String} (h1 : name ≠ "") (h2 : name ≠ "—")
    (t : List (String × ℚ)) (row : PlanRow) :
    (alookup name (totalsStep t row)).isSome =
      ((alookup name t).isSome ||
        (row.meat == name || row.veg == name || row.carb == name)) := by
  unfold totalsStep
  rw [isSome_add_item h1 h2, isSome_add_item h1 h2, isSome_add_item h1 h2]
  simp [Bool.or_assoc]

theorem getD_foldl_totals {name : String} (h1 : name ≠ "") (h2 : name ≠ "—") :
    ∀ (plan : List PlanRow) (acc : List (String × ℚ)),
      (alookup name (plan.foldl totalsStep acc)).getD 0 =
        (alookup name acc).getD 0 + weekGrams plan name := by
  intro plan
  induction plan with
  | nil => intro acc; simp [weekGrams]
  | cons row rest ih =>
    intro acc
    rw [List.foldl_cons, ih, getD_totalsStep h1 h2]
    unfold weekGrams
    rw [List.map_cons, List.sum_cons]
    ring

theorem isSome_foldl_totals {name : String} (h1 : name ≠ "") (h2 : name ≠ "—") :
    ∀ (plan : List PlanRow) (acc : List (String × ℚ)),
      (alookup name (plan.foldl totalsStep acc)).isSome =
        ((alookup name acc).isSome || appearsBool plan name) := by
  intro plan
  induction plan with
  | nil => intro acc; simp [appearsBool]
  | cons row rest ih =>
    intro acc
    rw [List.foldl_cons, ih, isSome_totalsStep h1 h2]
    unfold appearsBool
    rw [List.any_cons]
    simp [Bool.or_assoc, Bool.or_comm, Bool.or_left_comm]

theorem week_totals_alookup {name : String} (h1 : name ≠ "") (h2 : name ≠ "—")
    (plan : List PlanRow) :
    alookup name (week_totals plan) =
      if appearsBool plan name then some (weekGrams plan name) else none := by
  have hs := isSome_foldl_totals h1 h2 plan []
  have hg := getD_foldl_totals h1 h2 plan []
  rw [week_totals_eq_foldl]
  rcases hl : alookup name (List.foldl totalsStep [] plan) with _ | v
  · rw [hl] at hs
    simp [alookup] at hs
    rw [if_neg (by simp [← hs])]
  · rw [hl] at hs hg
    simp [alookup] at hs hg
    rw [if_pos hs, hg]

theorem mem_keys_upsert {n' : String} :
    ∀ {t : List (String × ℚ)} {n : String} {g : ℚ},
      n' ∈ (upsert t n g).map Prod.fst → n' ∈ t.map Prod.fst ∨ n' = n := by
  intro t
  induction t with
  | nil =>
    intro n g h
    simp [upsert] at h
    exact Or.inr h
  | cons p rest ih =>
    intro n g h
    obtain ⟨k, v⟩ := p
    rw [upsert] at h
    split_ifs at h with hk
    · rw [List.map_cons] at h
      rcases List.mem_cons.mp h with h | h
      · exact Or.inl (by rw [List.map_cons]; exact List.mem_cons.mpr (Or.inl h))
      · exact Or.inl (by rw [List.map_cons]; exact List.mem_cons.mpr (Or.inr h))
    · rw [List.map_cons] at h
      rcases List.mem_cons.mp h with h | h
      · exact Or.inl (by rw [List.map_cons]; exact List.mem_cons.mpr (Or.inl h))
      · rcases ih h with h' | h'
        · exact Or.inl (by rw [List.map_cons]
                           exact List.mem_cons.mpr (Or.inr h'))
        · exact Or.inr h'

theorem nodup_keys_upsert {t : List (String × ℚ)} {n : String} {g : ℚ}
    (h : (t.map Prod.fst).Nodup) : ((upsert t n g).map Prod.fst).Nodup := by
  induction t with
  | nil => simp [upsert]
  | cons p rest ih =>
    obtain ⟨k, v⟩ := p
    rw [upsert]
    rw [List.map_cons, List.nodup_cons] at h
    split_ifs with hk
    · rw [List.map_cons, List.nodup_cons]
      exact h
    · rw [List.map_cons, List.nodup_cons]
      refine ⟨fun hc => ?_, ih h.2⟩
      rcases mem_keys_upsert hc with h' | h'
      · exact h.1 h'
      · exact hk h'

theorem nodup_keys_add_item {t : List (String × ℚ)} {n : String} {g : ℚ}
    (h : (t.map Prod.fst).Nodup) : ((add_item t n g).map Prod.fst).Nodup := by
  unfold add_item
  split_ifs
  · exact h
  · exact nodup_keys_upsert h

theorem nodup_keys_week_totals (plan : List PlanRow) :
    ((week_totals plan).map Prod.fst).Nodup := by
  rw [week_totals_eq_foldl]
  have hgen : ∀ (p : List PlanRow) (acc : List (String × ℚ)),
      (acc.map Prod.fst).Nodup →
      ((p.foldl totalsStep acc).map Prod.fst).Nodup := by
    intro p
    induction p with
    | nil => intro acc h; exact h
    | cons row rest ih =>
      intro acc h
      rw [List.foldl_cons]
      exact ih _ (nodup_keys_add_item (nodup_keys_add_item
        (nodup_keys_add_item h)))
  exact hgen plan [] (by simp)

theorem alookup_of_mem {t : List (String × ℚ)} {n : String} {v : ℚ}
    (hnd : (t.map Prod.fst).Nodup) (h : (n, v) ∈ t) : alookup n t = some v := by
  induction t with
  | nil => simp at h
  | cons p rest ih =>
    obtain ⟨k, w⟩ := p
    rw [List.map_cons, List.nodup_cons] at hnd
    rcases List.mem_cons.mp h with h' | h'
    · cases h'
      rw [alookup, if_pos rfl]
    · have hk : n ≠ k := by
        intro hc
        subst hc
        exact hnd.1 (by simpa using List.mem_map_of_mem Prod.fst h')
      rw [alookup, if_neg hk]
      exact ih hnd.2 h'

theorem mem_of_alookup {t : List (String × ℚ)} {n : String} {v : ℚ}
    (h : alookup n t = some v) : (n, v) ∈ t := by
  induction t with
  | nil => simp [alookup] at h
  | cons p rest ih =>
    obtain ⟨k, w⟩ := p
    rw [alookup] at h
    split_ifs at h with hk
    · simp only [Option.some.injEq] at h
      subst hk h
      exact List.mem_cons_self _ _
    · exact List.mem_cons_of_mem _ (ih h)

theorem alookup_none_not_mem {n : String} :
    ∀ {t : List (String × ℚ)}, alookup n t = none → ∀ v, (n, v) ∉ t := by
  intro t
  induction t with
  | nil =>
    intro _ v hc
    simp at hc
  | cons p rest ih =>
    intro h v hc
    obtain ⟨k, w⟩ := p
    rw [alookup] at h
    split_ifs at h with hk
    rcases List.mem_cons.mp hc with h' | h'
    · exact hk (congrArg Prod.fst h')
    · exact ih h v h'

theorem shopRowLe_trans (a b c : ShopRow) (hab : shopRowLe a b)
    (hbc : shopRowLe b c) : shopRowLe a c := by
  simp only [shopRowLe, decide_eq_true_eq] at *
  rcases hab with hab | ⟨hab1, hab2⟩
  · rcases hbc with hbc | ⟨hbc1, hbc2⟩
    · exact Or.inl (lt_trans hab hbc)
    · exact Or.inl (hbc1 ▸ hab)
  · rcases hbc with hbc | ⟨hbc1, hbc2⟩
    · exact Or.inl (hab1 ▸ hbc)
    · exact Or.inr ⟨hab1.trans hbc1, le_trans hab2 hbc2⟩

theorem shopRowLe_total (a b : ShopRow) : shopRowLe a b || shopRowLe b a := by
  simp only [shopRowLe, Bool.or_eq_true, decide_eq_true_eq]
  rcases lt_trichotomy a.category b.category with h | h | h
  · exact Or.inl (Or.inl h)
  · rcases le_total a.ingredient b.ingredient with h' | h'
    · exact Or.inl (Or.inr ⟨h, h'⟩)
    · exact Or.inr (Or.inr ⟨h.symm, h'⟩)
  · exact Or.inr (Or.inl h)

/-- C9 counterexample: a 7-day plan with 100 g of "Chicken" on day 1 only.
The reported per-day average is `round(100/7, 1) = 14.3`, which is NOT the
reported total divided by 7 (`100/7 = 14.285…`): the output columns are
rounded, refuting the claim's exact-average reading. -/
theorem C9_counterexample :
    build_weekly_shopping_list
      ((⟨"Chicken", "—", "—", 100, 0, 0⟩ : PlanRow) ::
        List.replicate 6 ⟨"—", "—", "—", 0, 0, 0⟩) =
      [⟨"Chicken", "Unknown", 100, 143/10⟩] ∧
    (143/10 : ℚ) ≠ 100/7 := by
  constructor
  · simp +decide only [build_weekly_shopping_list, week_totals, add_item,
      upsert, catalog_category, INGREDIENTS, List.replicate, List.foldl,
      List.find?, List.map, List.mergeSort_singleton]
    norm_num [pyRound, pyRound1]
  · norm_num

/-- C9 (amended): the shopping list contains one row per distinct ingredient
name appearing in the week (skipping the `"—"` placeholder), carrying the
week total ROUNDED to the nearest gram (half to even) and the exact sum
divided by 7 ROUNDED to one decimal, tagged with the catalog category or
"Unknown", sorted by category then ingredient; the worked example (Chicken
100 g on all 7 days) yields total 700 g and average 100 g/day.  (The
original claim's unrounded reading of the average column is refuted by
`C9_counterexample`.) -/
theorem C9_shopping_list :
    (∀ (plan : List PlanRow) (name : String), name ≠ "" → name ≠ "—" →
      ((∃ row ∈ build_weekly_shopping_list plan, row.ingredient = name) ↔
        appearsBool plan name = true)) ∧
    (∀ (plan : List PlanRow) (row : ShopRow),
      row ∈ build_weekly_shopping_list plan →
      row.ingredient ≠ "" → row.ingredient ≠ "—" →
      (row.category = catalog_category row.ingredient ∧
       row.total_g = pyRound (weekGrams plan row.ingredient) ∧
       row.avg_g = pyRound1 (weekGrams plan row.ingredient / 7))) ∧
    (∀ plan : List PlanRow,
      (build_weekly_shopping_list plan).Pairwise
        (fun a b => shopRowLe a b = true)) ∧
    (build_weekly_shopping_list
        (List.replicate 7 ⟨"Chicken", "—", "—", 100, 0, 0⟩) =
      [⟨"Chicken", "Unknown", 700, 100⟩]) := by
  refine ⟨?_, ?_, ?_, ?_⟩
  · intro plan name hn1 hn2
    constructor
    · rintro ⟨row, hrow, hname⟩
      unfold build_weekly_shopping_list at hrow
      rw [List.mem_mergeSort] at hrow
      obtain ⟨p, hp, hmk⟩ := List.mem_map.mp hrow
      by_contra hc
      have hnone : alookup name (week_totals plan) = none := by
        rw [week_totals_alookup hn1 hn2]
        simp [hc]
      have hp1 : p.1 = name := by
        rw [← hname, ← hmk]
      exact alookup_none_not_mem hnone p.2 (by rw [← hp1]; exact hp)
    · intro happ
      have hsome : alookup name (week_totals plan) =
          some (weekGrams plan name) := by
        rw [week_totals_alookup hn1 hn2, if_pos happ]
      have hmem := mem_of_alookup hsome
      refine ⟨ShopRow.mk name (catalog_category name)
        (pyRound (weekGrams plan name))
        (pyRound1 (weekGrams plan name / 7)), ?_, rfl⟩
      unfold build_weekly_shopping_list
      rw [List.mem_mergeSort]
      exact List.mem_map.mpr ⟨(name, weekGrams plan name), hmem, rfl⟩
  · intro plan row hrow hn1 hn2
    unfold build_weekly_shopping_list at hrow
    rw [List.mem_mergeSort] at hrow
    obtain ⟨p, hp, hmk⟩ := List.mem_map.mp hrow
    have hp1 : p.1 = row.ingredient := by rw [← hmk]
    have hlook : alookup p.1 (week_totals plan) = some p.2 :=
      alookup_of_mem (nodup_keys_week_totals plan) (by
        rw [show (p.1, p.2) = p from rfl]; exact hp)
    rw [hp1, week_totals_alookup hn1 hn2] at hlook
    split_ifs at hlook with happ
    · simp only [Option.some.injEq] at hlook
      refine ⟨?_, ?_, ?_⟩
      · rw [← hmk, hp1]
      · rw [← hmk]
        dsimp only
        rw [hp1, ← hlook]
      · rw [← hmk]
        dsimp only
        rw [hp1, ← hlook]
  · intro plan
    exact List.sorted_mergeSort
      (fun a b c => shopRowLe_trans a b c) shopRowLe_total _
  · simp +decide only [build_weekly_shopping_list, week_totals, add_item,
      upsert, catalog_category, INGREDIENTS, List.replicate, List.foldl,
      List.find?, List.map, List.mergeSort_singleton]
    norm_num [pyRound, pyRound1]

/-- C9 witness: the theorem's membership clause and rounding clause applied
to the all-Chicken plan, plus the worked example itself. -/
theorem C9_witness :
    (∃ row ∈ build_weekly_shopping_list
        (List.replicate 7 (⟨"Chicken", "—", "—", 100, 0, 0⟩ : PlanRow)),
      row.ingredient = "Chicken") ∧
    build_weekly_shopping_list
        (List.replicate 7 (⟨"Chicken", "—", "—", 100, 0, 0⟩ : PlanRow)) =
      [⟨"Chicken", "Unknown", 700, 100⟩] := by
  refine ⟨(C9_shopping_list.1 _ "Chicken" (by decide) (by decide)).mpr
    (by decide), C9_shopping_list.2.2.2⟩
